import Mathlib

/-!
Shallow embedding of `src/pSystem.py`: a reliability model of components with
exponentially distributed lifetimes, composed into systems in series or in
parallel, with a conditional-probability query.

The Python code has two classes:

* `Component(l)` with `p(t) = np.exp(-self.l * t)`;
* `System(componentsAndSubSystems, parallel, series)` with
  `p(t)` returning `1 - prod(1 - c.p(t))` when `self.parallel` is set,
  `prod(c.p(t))` when `self.series` is set (and `self.parallel` is not),
  and falling off the end of the function (Python returns `None`) when
  neither flag is set; and
  `condProb(dependence, t, negate)` returning `self.p(t) * dependence.p(t)`
  or `self.p(t) * (1 - dependence.p(t))` when `negate` is set.

We model a node of the tree (a `Component` or a `System`) as an inductive
type, and model `p` as returning `Option ℝ`: `none` models the Python
`None` return of the flagless branch (and the `TypeError` it causes in any
arithmetic context higher up the tree). No input validation is present in
the source, so none is modelled: constructors are total and `p` is defined
at negative rates and times.
-/

namespace PSystem

/-- A node of the reliability tree: either a leaf `Component` holding the
exponential rate parameter `l`, or a `System` holding the list
`componentsAndSubSystems` (called `comps` in the source) together with the
two topology booleans `parallel` and `series`. -/
inductive Node where
  | comp (l : ℝ)
  | sys (comps : List Node) (parallel : Bool) (series : Bool)

mutual

/-- `p n t`: the probability of the node working at time `t`.

* `Component.p`: `return np.exp(-self.l * t)`.
* `System.p`: `if self.parallel: return 1 - np.prod([1 - c.p(t) ...])`,
  `elif self.series: return np.prod([c.p(t) ...])`, else Python returns
  `None`, modelled as `none`. A `none` from a child propagates (in Python
  the arithmetic on `None` raises). -/
noncomputable def p : Node → ℝ → Option ℝ
  | Node.comp l, t => some (Real.exp (-l * t))
  | Node.sys comps par ser, t =>
    if par then
      (pList comps t).map (fun ps => 1 - (ps.map (fun pE => 1 - pE)).prod)
    else if ser then
      (pList comps t).map (fun ps => ps.prod)
    else
      none

/-- The list of the children's probabilities at time `t`, in order
(the iterable `(c.p(t) for c in self.comps)` fed to `np.fromiter`);
`none` as soon as one child evaluates to `none`. -/
noncomputable def pList : List Node → ℝ → Option (List ℝ)
  | [], _ => some []
  | c :: cs, t => (p c t).bind (fun x => (pList cs t).map (fun xs => x :: xs))

end

/-- `System.condProb(dependence, t, negate)`:
`self.p(t) * (1 - dependence.p(t))` when `negate`, else
`self.p(t) * dependence.p(t)`. -/
noncomputable def condProb (s : Node) (dependence : Node) (t : ℝ)
    (negate : Bool) : Option ℝ :=
  if negate then
    (p s t).bind (fun pS => (p dependence t).map (fun pD => pS * (1 - pD)))
  else
    (p s t).bind (fun pS => (p dependence t).map (fun pD => pS * pD))

/-- A list of reals all lying in `[0,1]` has product in `[0,1]`. -/
lemma list_prod_mem_unit (l : List ℝ) (h : ∀ x ∈ l, 0 ≤ x ∧ x ≤ 1) :
    0 ≤ l.prod ∧ l.prod ≤ 1 := by
  induction l with
  | nil => simp
  | cons a l ih =>
    have ha := h a (List.mem_cons_self a l)
    have hl := ih (fun x hx => h x (List.mem_cons_of_mem a hx))
    rw [List.prod_cons]
    constructor
    · exact mul_nonneg ha.1 hl.1
    · nlinarith [ha.1, ha.2, hl.1, hl.2]

/-- C1: a System with the series topology (parallel flag unset, series flag
set) whose children evaluate to the list `ps` of probabilities returns the
product of `ps`. -/
theorem series_p_eq_prod (cs : List Node) (t : ℝ) (ps : List ℝ)
    (h : pList cs t = some ps) :
    p (Node.sys cs false true) t = some ps.prod := by
  simp [p, h]

/-- Witness for C1 at the concrete system `System([Component(0)], series=True)`
and `t = 0`. -/
theorem series_p_eq_prod_witness :
    p (Node.sys [Node.comp 0] false true) 0
      = some ([Real.exp (-(0:ℝ) * 0)]).prod := by
  apply series_p_eq_prod [Node.comp 0] 0 [Real.exp (-(0:ℝ) * 0)]
  simp [pList, p]

/-- C2: a System with the parallel topology (parallel flag set, series flag
unset) whose children evaluate to the list `ps` of probabilities returns
`1 - Π (1 - p_i)`. -/
theorem parallel_p_eq_one_sub_prod (cs : List Node) (t : ℝ) (ps : List ℝ)
    (h : pList cs t = some ps) :
    p (Node.sys cs true false) t
      = some (1 - (ps.map (fun pE => 1 - pE)).prod) := by
  simp [p, h]

/-- Witness for C2 at the concrete system
`System([Component(0)], parallel=True)` and `t = 0`. -/
theorem parallel_p_eq_one_sub_prod_witness :
    p (Node.sys [Node.comp 0] true false) 0
      = some (1 - (([Real.exp (-(0:ℝ) * 0)]).map (fun pE => 1 - pE)).prod) := by
  apply parallel_p_eq_one_sub_prod [Node.comp 0] 0 [Real.exp (-(0:ℝ) * 0)]
  simp [pList, p]

/-- C3: a Component with rate `l ≥ 0` evaluated at time `t ≥ 0` returns
`exp (-(l * t))`. -/
theorem component_p_eq_exp (l t : ℝ) (hl : 0 ≤ l) (ht : 0 ≤ t) :
    p (Node.comp l) t = some (Real.exp (-(l * t))) := by
  simp [p, neg_mul]

/-- Witness for C3 at rate `0`, time `0`. -/
theorem component_p_eq_exp_witness :
    p (Node.comp 0) 0 = some (Real.exp (-((0:ℝ) * 0))) :=
  component_p_eq_exp 0 0 le_rfl le_rfl

/-- C4: when the system evaluates to probability `x` and the dependence to
probability `y` at time `t`, `condProb` returns `x * y` without negation
and `x * (1 - y)` with negation. -/
theorem condProb_eq_products (cs : List Node) (par ser : Bool) (dep : Node)
    (t x y : ℝ) (hS : p (Node.sys cs par ser) t = some x)
    (hD : p dep t = some y) :
    condProb (Node.sys cs par ser) dep t false = some (x * y) ∧
    condProb (Node.sys cs par ser) dep t true = some (x * (1 - y)) := by
  constructor <;> simp [condProb, hS, hD]

/-- Witness for C4: the series system `System([Component(0)], series=True)`
with dependence `Component(0)` at `t = 0`. -/
theorem condProb_eq_products_witness :
    condProb (Node.sys [Node.comp 0] false true) (Node.comp 0) 0 false
        = some (([Real.exp (-(0:ℝ) * 0)]).prod * Real.exp (-(0:ℝ) * 0)) ∧
    condProb (Node.sys [Node.comp 0] false true) (Node.comp 0) 0 true
        = some (([Real.exp (-(0:ℝ) * 0)]).prod * (1 - Real.exp (-(0:ℝ) * 0))) := by
  apply condProb_eq_products [Node.comp 0] false true (Node.comp 0) 0
      ([Real.exp (-(0:ℝ) * 0)]).prod (Real.exp (-(0:ℝ) * 0))
  · simp [p, pList]
  · simp [p]

/-- C5's claim quantifies over any configuration of the topology flags, but a
System with both flags unset returns Python `None` from `p` (the function
falls off the end), not a real number in `[0,1]`: counterexample at the
System `System([Component(0)], parallel=False, series=False)` and `t = 0`,
whose single child has probability `1 ∈ [0,1]`. -/
theorem p_not_always_unit_interval :
    ¬ ∃ x : ℝ, p (Node.sys [Node.comp 0] false false) 0 = some x ∧
      0 ≤ x ∧ x ≤ 1 := by
  rintro ⟨x, hx, -⟩
  simp [p] at hx

/-- C5 (amended): for a System with at least one topology flag set, whose
children all evaluate to probabilities in `[0,1]`, at a time `t ≥ 0`,
`p` returns some real number in `[0,1]`. -/
theorem p_mem_unit_interval (cs : List Node) (par ser : Bool) (t : ℝ)
    (ps : List ℝ) (ht : 0 ≤ t) (hflag : par = true ∨ ser = true)
    (h : pList cs t = some ps) (hps : ∀ x ∈ ps, 0 ≤ x ∧ x ≤ 1) :
    ∃ x : ℝ, p (Node.sys cs par ser) t = some x ∧ 0 ≤ x ∧ x ≤ 1 := by
  cases par with
  | false =>
    have hser : ser = true := hflag.resolve_left (by simp)
    subst hser
    refine ⟨ps.prod, by simp [p, h], ?_⟩
    exact list_prod_mem_unit ps hps
  | true =>
    refine ⟨1 - (ps.map (fun pE => 1 - pE)).prod, by simp [p, h], ?_⟩
    have hq : ∀ x ∈ ps.map (fun pE => 1 - pE), 0 ≤ x ∧ x ≤ 1 := by
      intro x hx
      rcases List.mem_map.mp hx with ⟨y, hy, rfl⟩
      have := hps y hy
      constructor <;> linarith [this.1, this.2]
    have := list_prod_mem_unit _ hq
    constructor <;> linarith [this.1, this.2]

/-- Witness for C5 (amended) at `System([Component(0)], series=True)`,
`t = 0`: the single child probability is `exp (-0 * 0) = 1 ∈ [0,1]`. -/
theorem p_mem_unit_interval_witness :
    ∃ x : ℝ, p (Node.sys [Node.comp 0] false true) 0 = some x ∧
      0 ≤ x ∧ x ≤ 1 := by
  apply p_mem_unit_interval [Node.comp 0] false true 0 [Real.exp (-(0:ℝ) * 0)]
      le_rfl (Or.inr rfl)
  · simp [pList, p]
  · intro x hx
    rcases List.mem_singleton.mp hx with rfl
    norm_num

/-- C6: a System with a single child `c` evaluating to probability `x`
returns `x` both under the parallel topology and under the series topology
(identity cases: `1 - (1 - x) = x` and the singleton product is `x`). -/
theorem singleton_child_identity (c : Node) (t x : ℝ) (h : p c t = some x) :
    p (Node.sys [c] true false) t = some x ∧
    p (Node.sys [c] false true) t = some x := by
  constructor
  · simp [p, pList, h]
  · simp [p, pList, h]

/-- Witness for C6 at `c = Component(0)`, `t = 0`. -/
theorem singleton_child_identity_witness :
    p (Node.sys [Node.comp 0] true false) 0 = some (Real.exp (-(0:ℝ) * 0)) ∧
    p (Node.sys [Node.comp 0] false true) 0 = some (Real.exp (-(0:ℝ) * 0)) := by
  apply singleton_child_identity (Node.comp 0) 0 (Real.exp (-(0:ℝ) * 0))
  simp [p]

/-- Two optional lists of child probabilities agree up to permutation:
both are `none`, or both are `some` of permuted lists. -/
def OptPerm (o₁ o₂ : Option (List ℝ)) : Prop :=
  match o₁, o₂ with
  | some l₁, some l₂ => l₁.Perm l₂
  | none, none => True
  | _, _ => False

lemma pList_perm (t : ℝ) {cs cs' : List Node} (h : cs.Perm cs') :
    OptPerm (pList cs t) (pList cs' t) := by
  induction h with
  | nil => exact List.Perm.nil
  | cons c h ih =>
    rename_i l₁ l₂
    rw [pList, pList]
    cases p c t with
    | none => exact trivial
    | some x =>
      revert ih
      cases pList l₁ t with
      | none =>
        cases pList l₂ t with
        | none => exact fun _ => trivial
        | some m₂ => exact fun ih => (ih : False).elim
      | some m₁ =>
        cases pList l₂ t with
        | none => exact fun ih => (ih : False).elim
        | some m₂ => exact fun ih => List.Perm.cons x (ih : m₁.Perm m₂)
  | swap a b l =>
    rw [pList, pList, pList, pList]
    cases p a t with
    | none =>
      cases p b t with
      | none => exact trivial
      | some y => exact trivial
    | some x =>
      cases p b t with
      | none => exact trivial
      | some y =>
        cases pList l t with
        | none => exact trivial
        | some rest => exact List.Perm.swap x y rest
  | trans h₁ h₂ ih₁ ih₂ =>
    rename_i l₁ l₂ l₃
    revert ih₁ ih₂
    cases pList l₁ t with
    | none =>
      cases pList l₂ t with
      | none =>
        cases pList l₃ t with
        | none => exact fun _ _ => trivial
        | some m₃ => exact fun _ ih₂ => (ih₂ : False).elim
      | some m₂ => exact fun ih₁ _ => (ih₁ : False).elim
    | some m₁ =>
      cases pList l₂ t with
      | none => exact fun ih₁ _ => (ih₁ : False).elim
      | some m₂ =>
        cases pList l₃ t with
        | none => exact fun _ ih₂ => (ih₂ : False).elim
        | some m₃ =>
          exact fun ih₁ ih₂ => (ih₁ : m₁.Perm m₂).trans (ih₂ : m₂.Perm m₃)

/-- C7: permuting the children list of a System does not change `p(t)`. -/
theorem p_perm_invariant (cs cs' : List Node) (par ser : Bool) (t : ℝ)
    (h : cs.Perm cs') :
    p (Node.sys cs par ser) t = p (Node.sys cs' par ser) t := by
  have hp := pList_perm t h
  rw [p, p]
  revert hp
  cases pList cs t with
  | none =>
    cases pList cs' t with
    | none => exact fun _ => rfl
    | some l₂ => exact fun hp => (hp : False).elim
  | some l₁ =>
    cases pList cs' t with
    | none => exact fun hp => (hp : False).elim
    | some l₂ =>
      intro hp
      have hperm : l₁.Perm l₂ := hp
      have hprod : l₁.prod = l₂.prod := List.Perm.prod_eq hperm
      have hqprod : (l₁.map (fun pE => 1 - pE)).prod
          = (l₂.map (fun pE => 1 - pE)).prod :=
        List.Perm.prod_eq (List.Perm.map _ hperm)
      cases par <;> cases ser <;> simp [hprod, hqprod]

/-- Witness for C7: swapping the two children `Component(0)`, `Component(1)`
of a series System leaves `p(0)` unchanged. -/
theorem p_perm_invariant_witness :
    p (Node.sys [Node.comp 0, Node.comp 1] false true) 0
      = p (Node.sys [Node.comp 1, Node.comp 0] false true) 0 :=
  p_perm_invariant [Node.comp 0, Node.comp 1] [Node.comp 1, Node.comp 0]
    false true 0 (List.Perm.swap (Node.comp 1) (Node.comp 0) [])

/-- C8 claims an `InvalidArgument` error is raised for `rate < 0`, `t < 0`
or empty children; the source performs no validation. Counterexample: a
Component with rate `-1` evaluates fine at `t = 1` (to `exp 1 > 1`), a
Component with rate `1` evaluates fine at `t = -1`, and a System with empty
children evaluates fine (to `0` in parallel), all returning values rather
than raising. -/
theorem no_invalid_argument_raised :
    p (Node.comp (-1)) 1 = some (Real.exp 1) ∧
    p (Node.comp 1) (-1) = some (Real.exp 1) ∧
    p (Node.sys [] true false) 0 = some 0 := by
  refine ⟨?_, ?_, ?_⟩
  · simp [p]
  · simp [p]
  · simp [p, pList]

/-- C8 (amended): no validation is performed; a Component accepts any rate
and any time (returning `exp (-l * t)`), and a System with an empty children
list evaluates without error under either topology flag. -/
theorem no_validation (l t : ℝ) :
    p (Node.comp l) t = some (Real.exp (-l * t)) ∧
    (p (Node.sys [] true false) t).isSome = true ∧
    (p (Node.sys [] false true) t).isSome = true := by
  refine ⟨by simp [p], ?_, ?_⟩ <;> simp [p, pList]

/-- C9: with both topology flags set, `p` takes the parallel branch (the
`if self.parallel` test comes first), returning `1 - Π (1 - p_i)`; the
ambiguous configuration is not rejected. -/
theorem both_flags_parallel_precedence (cs : List Node) (t : ℝ) (ps : List ℝ)
    (h : pList cs t = some ps) :
    p (Node.sys cs true true) t
      = some (1 - (ps.map (fun pE => 1 - pE)).prod) := by
  simp [p, h]

/-- Witness for C9 at `System([Component(0)], parallel=True, series=True)`
and `t = 0`. -/
theorem both_flags_parallel_precedence_witness :
    p (Node.sys [Node.comp 0] true true) 0
      = some (1 - (([Real.exp (-(0:ℝ) * 0)]).map (fun pE => 1 - pE)).prod) := by
  apply both_flags_parallel_precedence [Node.comp 0] 0 [Real.exp (-(0:ℝ) * 0)]
  simp [pList, p]

/-- C10: a System with an empty children list returns `0` under the parallel
topology (`1 -` the empty product `1`) and `1` under the series topology
(the empty product), rather than failing. -/
theorem empty_children_p (t : ℝ) :
    p (Node.sys [] true false) t = some 0 ∧
    p (Node.sys [] false true) t = some 1 := by
  constructor <;> simp [p, pList]

end PSystem
